import Mathlib

/-!
Shallow embedding of `src/advanced-vector/vector.h`: the raw-memory buffer
owner `RawMemory<T>` and the growable sequence container `Vector<T>`.

Modelling conventions:
- A raw region is identified by an abstract address (`Option Nat`, `none`
  models `nullptr`).  Capacities and sizes are `Nat`.
- The live elements of a `Vector` are carried as a `List`; `size_` is the
  list's length.  Uninitialized slots `[size, capacity)` carry no data, so
  only the capacity of the region is tracked.
- Element moves are value copies: the element type is modelled as a plain
  value type, so a moved-from slot retains its former value, which is what
  the value-level claims observe.
- Operations that can throw are modelled with `Except`, the error carrying
  the container state at the moment the exception propagates.
-/

set_option autoImplicit false

namespace AdvancedVector

variable {α : Type}

/-- `RawMemory<T>`: owns one raw region.  `buffer` is the region's abstract
address (`none` = `nullptr`), `capacity` its slot count. -/
structure RawMemory where
  buffer : Option Nat
  capacity : Nat
deriving DecidableEq, Repr

/-- `RawMemory()` default constructor: `buffer_ = nullptr`, `capacity_ = 0`. -/
def RawMemory.mk0 : RawMemory := ⟨none, 0⟩

/-- `RawMemory::Swap`: exchanges `buffer_` and `capacity_` of the two owners.
Returns the pair (new this, new other). -/
def RawMemory.swapOp (a b : RawMemory) : RawMemory × RawMemory := (b, a)

/-- `RawMemory(RawMemory&& other)`: the fresh object is default-initialized
(`nullptr`, 0) and then calls `Swap(other)`.  Returns (new this, new other). -/
def RawMemory.moveCtor (other : RawMemory) : RawMemory × RawMemory :=
  RawMemory.swapOp RawMemory.mk0 other

/-- `RawMemory::operator=(RawMemory&& rhs)` for `this != &rhs`:
`Deallocate(buffer_); Swap(rhs);`.  The deallocation frees `this`'s region but
leaves the pointer value in `buffer_`, which the swap then hands to `rhs`.
Returns (new this, new rhs, address freed during the assignment). -/
def RawMemory.moveAssign (a rhs : RawMemory) : RawMemory × RawMemory × Option Nat :=
  (rhs, a, a.buffer)

/-- `Vector<T>`: `elems` is the list of live elements (slots `[0, size_)`),
`capacity` is `data_.Capacity()`. -/
structure Vec (α : Type) where
  elems : List α
  capacity : Nat
deriving DecidableEq, Repr

/-- `size_`: the number of live elements. -/
def Vec.size (v : Vec α) : Nat := v.elems.length

/-- The container invariant `0 <= size <= capacity` (the lower bound is
implicit in `Nat`). -/
def Vec.wf (v : Vec α) : Prop := v.size ≤ v.capacity

instance (v : Vec α) : Decidable v.wf :=
  inferInstanceAs (Decidable (v.size ≤ v.capacity))

/-- `Vector()` default constructor: no storage, no elements. -/
def Vec.emptyV (α : Type) : Vec α := ⟨[], 0⟩

/-- `Vector(size_t size)`: acquires a region of capacity `size` and
value-constructs `size` elements (`d` is the value-constructed element). -/
def Vec.sizedCtor (n : Nat) (d : α) : Vec α := ⟨List.replicate n d, n⟩

/-- `Vector(const Vector& other)`: acquires a region of capacity `other.size_`
and copy-constructs the `other.size_` live elements. -/
def Vec.copyCtor (other : Vec α) : Vec α := ⟨other.elems, other.size⟩

/-- `Vector::Swap`: `std::swap(data_, other.data_); std::swap(size_, other.size_)`.
Returns (new this, new other). -/
def Vec.swapOp (a b : Vec α) : Vec α × Vec α := (b, a)

/-- `Vector(Vector&& other)`: the fresh object is default-constructed and then
calls `Swap(other)`.  Returns (new this, new other). -/
def Vec.moveCtorV (other : Vec α) : Vec α × Vec α :=
  Vec.swapOp (Vec.emptyV α) other

/-- `Vector::operator=(const Vector& rhs)` for `this != &rhs`.
If `rhs.size_ > data_.Capacity()`: build `Vector rhs_copy(rhs)` and `Swap` it in.
Otherwise overwrite in place: when `rhs.size_ >= size_`, `std::copy_n` the
first `size_` elements then `std::uninitialized_copy_n` the remaining
`rhs.size_ - size_`; when `rhs.size_ < size_`, `std::copy_n` the first
`rhs.size_` elements then `std::destroy_n` the trailing `size_ - rhs.size_`. -/
def Vec.copyAssign (a b : Vec α) : Vec α :=
  if b.size > a.capacity then
    (Vec.swapOp a (Vec.copyCtor b)).1
  else if b.size ≥ a.size then
    ⟨b.elems.take a.size ++ b.elems.drop a.size, a.capacity⟩
  else
    ⟨(b.elems.take b.size ++ a.elems.drop b.size).take b.size, a.capacity⟩

/-- `Vector::operator=(const Vector& rhs)` with the `this != &rhs` guard:
`sameObj` tells whether `&rhs == this`, in which case the body is skipped. -/
def Vec.copyAssignOp (a rhs : Vec α) (sameObj : Bool) : Vec α :=
  if sameObj then a else Vec.copyAssign a rhs

/-- `Vector::operator=(Vector&& rhs)` with the `this != &rhs` guard: when the
objects are distinct the body is `Swap(rhs)`.  Returns (new this, new rhs). -/
def Vec.moveAssignOp (a rhs : Vec α) (sameObj : Bool) : Vec α × Vec α :=
  if sameObj then (a, rhs) else Vec.swapOp a rhs

/-- `Vector::Reserve(new_capacity)`: no-op when `new_capacity <= Capacity()`;
otherwise `MoveOrCopyDataAndReplace(RawMemory<T>(new_capacity))` relocates all
live elements (move or copy by the relocation policy; values unchanged either
way) into the new region and swaps it in. -/
def Vec.reserve (v : Vec α) (newCapacity : Nat) : Vec α :=
  if newCapacity ≤ v.capacity then v
  else ⟨v.elems, newCapacity⟩

/-- `Vector::Resize(new_size)`: when shrinking, `std::destroy_n` the trailing
`size_ - new_size` elements; when growing, `Reserve(new_size)` then
value-construct the `new_size - size_` new trailing elements (`d` is the
value-constructed element). -/
def Vec.resize (v : Vec α) (d : α) (newSize : Nat) : Vec α :=
  if newSize ≤ v.size then
    ⟨v.elems.take newSize, v.capacity⟩
  else
    let r := v.reserve newSize
    ⟨r.elems ++ List.replicate (newSize - v.size) d, r.capacity⟩

/-- `Vector::EmplaceBack`: when `size_ == Capacity()`, acquire a region of
capacity `size_ == 0 ? 1 : size_ * 2`, construct the new element at slot
`size_` of the new region, then `MoveOrCopyDataAndReplace`; otherwise construct
at slot `size_` of the current region.  Returns the new container and the slot
index of `*(data_ + size_++)`, the reference the call returns. -/
def Vec.emplaceBack (v : Vec α) (x : α) : Vec α × Nat :=
  if v.size = v.capacity then
    let newCap := if v.size = 0 then 1 else v.size * 2
    (⟨v.elems ++ [x], newCap⟩, v.size)
  else
    (⟨v.elems ++ [x], v.capacity⟩, v.size)

/-- `Vector::PushBack(value)`: delegates to `EmplaceBack`. -/
def Vec.pushBack (v : Vec α) (x : α) : Vec α :=
  (v.emplaceBack x).1

/-- `Vector::PopBack`: precondition `size_ > 0`; destroys the last live
element and decrements `size_`. -/
def Vec.popBack (v : Vec α) : Vec α :=
  ⟨v.elems.dropLast, v.capacity⟩

/-- `Vector::Emplace(pos, args...)` with `pos` at offset `k` from `begin()`.
`pos == cend()` delegates to `EmplaceBack`.  Otherwise, when
`size_ == Capacity()`: acquire a region of capacity `size_ == 0 ? 1 : size_*2`,
construct the new element at slot `k` of the new region, then
`MoveOrCopyDataByPartAndReplace` relocates `[0,k)` to `[0,k)` and `[k,size)` to
`[k+1,size+1)`.  With spare capacity: move-construct the last element into slot
`size_` (`new(end()) T(move(back))`), shift `[k, size-1)` one slot right with
`std::move_backward`, and assign the new value into slot `k`.  Returns the new
container and the offset of the returned iterator `begin() + count`. -/
def Vec.emplace (v : Vec α) (k : Nat) (x : α) : Vec α × Nat :=
  if k = v.size then
    v.emplaceBack x
  else if v.size = v.capacity then
    let newCap := if v.size = 0 then 1 else v.size * 2
    (⟨v.elems.take k ++ [x] ++ v.elems.drop k, newCap⟩, k)
  else
    let afterTail := v.elems ++ v.elems.drop (v.size - 1)
    let afterShift := afterTail.take (k + 1) ++ (afterTail.drop k).take (v.size - 1 - k)
      ++ afterTail.drop v.size
    (⟨afterShift.take k ++ [x] ++ afterShift.drop (k + 1), v.capacity⟩, k)

/-- `Vector::Erase(pos)` with `pos` at offset `j` (`count = size_ - j`):
`std::move(end() - count + 1, end(), end() - count)` shifts `[j+1, size)` one
slot left onto `[j, size-1)` (the moved-from last element stays in slot
`size-1`), then `PopBack` destroys it.  Returns the new container and the
offset of the returned iterator `end() - count + 1`, which is `j`. -/
def Vec.erase (v : Vec α) (j : Nat) : Vec α × Nat :=
  let shifted := v.elems.take j ++ v.elems.drop (j + 1) ++ v.elems.drop (v.size - 1)
  (Vec.popBack ⟨shifted, v.capacity⟩, j)

/-- One call in a `PushBack`/`PopBack` call sequence. -/
inductive VOp (α : Type) where
  | push (x : α)
  | pop
deriving DecidableEq, Repr

/-- Apply one `PushBack`/`PopBack` call. -/
def Vec.step (v : Vec α) : VOp α → Vec α
  | .push x => (v.emplaceBack x).1
  | .pop => v.popBack

/-- All observation points of a call sequence: the states before, between and
after the calls. -/
def Vec.trajectory (v : Vec α) : List (VOp α) → List (Vec α)
  | [] => [v]
  | op :: ops => v :: Vec.trajectory (v.step op) ops

/-- A call sequence is valid when every `PopBack` meets its precondition
`size_ > 0` at the point it is called. -/
def Vec.validOps (v : Vec α) : List (VOp α) → Bool
  | [] => true
  | .push x :: ops => Vec.validOps (v.step (.push x)) ops
  | .pop :: ops => v.size ≠ 0 && Vec.validOps (v.step .pop) ops

/-- One primitive action of a reallocation sequence, in program order:
`alloc` the new region, `constructNew` the element being inserted at a slot of
the new region, `reloc` one existing element from a slot of the old region to a
slot of the new region, `destroyOld` the stale elements, `install` the new
region (`data_.Swap(new_data)`). -/
inductive RelocEv where
  | alloc (cap : Nat)
  | constructNew (slot : Nat)
  | reloc (src dst : Nat)
  | destroyOld
  | install
deriving DecidableEq, Repr

/-- Action order of the `size_ == Capacity()` branch of `EmplaceBack` on a
vector of size `n`: allocate, construct the new element at tail slot `n` of
the new region, then `MoveOrCopyDataAndReplace` relocates slots `0..n-1`,
destroys the old elements and installs the new region. -/
def emplaceBackGrowTrace (n newCap : Nat) : List RelocEv :=
  [RelocEv.alloc newCap, RelocEv.constructNew n]
    ++ ((List.range n).map fun i => RelocEv.reloc i i)
    ++ [RelocEv.destroyOld, RelocEv.install]

/-- Action order of the `size_ == Capacity()` branch of `Emplace` at offset
`k` on a vector of size `n`: allocate, construct the new element at slot `k`
of the new region, then `MoveOrCopyDataByPartAndReplace` relocates `[0,k)` to
`[0,k)` and `[k,n)` to `[k+1,n+1)`, destroys the old elements and installs
the new region. -/
def emplaceGrowTrace (n newCap k : Nat) : List RelocEv :=
  [RelocEv.alloc newCap, RelocEv.constructNew k]
    ++ ((List.range k).map fun i => RelocEv.reloc i i)
    ++ ((List.range (n - k)).map fun i => RelocEv.reloc (k + i) (k + 1 + i))
    ++ [RelocEv.destroyOld, RelocEv.install]

/-- `EmplaceBack` with a fallible constructor for the new element: `mk` is
`none` when `T(std::forward<Args>(args)...)` throws.  In the
`size_ == Capacity()` branch the construction happens right after the
allocation, before any existing element is relocated, so on failure the
unwinding only releases the fresh region and the container state is exactly
the pre-call one (carried by `error`).  On success, returns the new container,
the returned slot index, and the actions performed on the regions. -/
def Vec.emplaceBackF (v : Vec α) (mk : Option α) : Except (Vec α) (Vec α × Nat × List RelocEv) :=
  if v.size = v.capacity then
    let newCap := if v.size = 0 then 1 else v.size * 2
    match mk with
    | none => .error v
    | some x => .ok (⟨v.elems ++ [x], newCap⟩, v.size, emplaceBackGrowTrace v.size newCap)
  else
    match mk with
    | none => .error v
    | some x => .ok (⟨v.elems ++ [x], v.capacity⟩, v.size, [RelocEv.constructNew v.size])

/-- The reallocating branch of copy assignment (`rhs.size_ > data_.Capacity()`):
`Vector rhs_copy(rhs); Swap(rhs_copy);` with a fallible per-element copy
constructor `cp`.  The temporary's copy construction copies the elements in
order; if one copy throws, the partially built temporary is unwound and the
target — untouched until the `Swap` — is exactly the pre-call state (carried
by `error`). -/
def Vec.copyAssignGrowF (a b : Vec α) (cp : α → Option α) : Except (Vec α) (Vec α) :=
  match b.elems.mapM cp with
  | none => .error a
  | some copied => .ok (Vec.swapOp a ⟨copied, b.size⟩).1

/-! Computation lemmas for the operations. -/

theorem Vec.emplaceBack_fst_elems (v : Vec α) (x : α) :
    (v.emplaceBack x).1.elems = v.elems ++ [x] := by
  unfold Vec.emplaceBack; split <;> rfl

theorem Vec.emplaceBack_snd (v : Vec α) (x : α) : (v.emplaceBack x).2 = v.size := by
  unfold Vec.emplaceBack; split <;> rfl

theorem Vec.emplaceBack_capacity (v : Vec α) (x : α) :
    (v.emplaceBack x).1.capacity =
      if v.size = v.capacity then (if v.size = 0 then 1 else v.size * 2) else v.capacity := by
  unfold Vec.emplaceBack
  by_cases h : v.size = v.capacity
  · rw [if_pos h, if_pos h]
  · rw [if_neg h, if_neg h]

theorem Vec.emplaceBack_size (v : Vec α) (x : α) :
    (v.emplaceBack x).1.size = v.size + 1 := by
  unfold Vec.size
  rw [Vec.emplaceBack_fst_elems]
  simp

theorem Vec.popBack_size (v : Vec α) : v.popBack.size = v.size - 1 := by
  unfold Vec.popBack Vec.size
  simp

theorem Vec.popBack_capacity (v : Vec α) : v.popBack.capacity = v.capacity := rfl

theorem Vec.emplace_fst_elems (v : Vec α) (k : Nat) (x : α) (hk : k ≤ v.size) :
    (v.emplace k x).1.elems = v.elems.take k ++ [x] ++ v.elems.drop k := by
  unfold Vec.emplace
  by_cases h1 : k = v.size
  · rw [if_pos h1, Vec.emplaceBack_fst_elems, h1]
    unfold Vec.size
    rw [List.take_length, List.drop_length]
    simp
  · rw [if_neg h1]
    have hk' : k < v.size := Nat.lt_of_le_of_ne hk h1
    by_cases h2 : v.size = v.capacity
    · rw [if_pos h2]
    · rw [if_neg h2]
      unfold Vec.size at hk' ⊢
      set l := v.elems with hl
      set n := l.length with hn
      have h3 : (l ++ l.drop (n - 1)).take (k + 1) = l.take (k + 1) :=
        List.take_append_of_le_length (by omega)
      have h4 : (l ++ l.drop (n - 1)).drop k = l.drop k ++ l.drop (n - 1) :=
        List.drop_append_of_le_length (by omega)
      have h5 : (l ++ l.drop (n - 1)).drop n = l.drop (n - 1) := by
        rw [List.drop_left' hn.symm]
      have h6 : (l.drop k ++ l.drop (n - 1)).take (n - 1 - k) = (l.drop k).take (n - 1 - k) :=
        List.take_append_of_le_length (by simp [hn]; omega)
      have h7 : (l.drop k).take (n - 1 - k) ++ l.drop (n - 1) = l.drop k := by
        have : l.drop (n - 1) = (l.drop k).drop (n - 1 - k) := by
          rw [List.drop_drop]
          congr 1
          omega
        rw [this, List.take_append_drop]
      have h8 : l.take (k + 1) ++ (l.drop k).take (n - 1 - k) ++ l.drop (n - 1)
          = l.take (k + 1) ++ l.drop k := by
        rw [List.append_assoc, h7]
      have h9 : (l.take (k + 1)).length = k + 1 := by
        simp [hn.symm]
        omega
      have h10 : (l.take (k + 1) ++ l.drop k).take k = l.take k := by
        rw [List.take_append_of_le_length (by omega), List.take_take]
        congr 1
        omega
      have h11 : (l.take (k + 1) ++ l.drop k).drop (k + 1) = l.drop k := by
        rw [List.drop_left' h9]
      simp only [h3, h4, h5, h6, h8, h10, h11]

theorem Vec.emplace_snd (v : Vec α) (k : Nat) (x : α) :
    (v.emplace k x).2 = k := by
  unfold Vec.emplace
  by_cases h1 : k = v.size
  · rw [if_pos h1, Vec.emplaceBack_snd, h1]
  · rw [if_neg h1]
    by_cases h2 : v.size = v.capacity
    · rw [if_pos h2]
    · rw [if_neg h2]

theorem Vec.emplace_capacity (v : Vec α) (k : Nat) (x : α) :
    (v.emplace k x).1.capacity =
      if v.size = v.capacity then (if v.size = 0 then 1 else v.size * 2) else v.capacity := by
  unfold Vec.emplace
  by_cases h1 : k = v.size
  · rw [if_pos h1, Vec.emplaceBack_capacity]
  · rw [if_neg h1]
    by_cases h2 : v.size = v.capacity
    · rw [if_pos h2, if_pos h2]
    · rw [if_neg h2, if_neg h2]

theorem Vec.emplace_size (v : Vec α) (k : Nat) (x : α) (hk : k ≤ v.size) :
    (v.emplace k x).1.size = v.size + 1 := by
  have h := Vec.emplace_fst_elems v k x hk
  unfold Vec.size at hk ⊢
  rw [h]
  simp
  omega

theorem Vec.erase_fst_elems (v : Vec α) (j : Nat) (hj : j < v.size) :
    (v.erase j).1.elems = v.elems.take j ++ v.elems.drop (j + 1) := by
  unfold Vec.size at hj
  unfold Vec.erase Vec.popBack Vec.size
  set l := v.elems with hl
  have hlen : (l.take j ++ l.drop (j + 1) ++ l.drop (l.length - 1)).length = l.length := by
    simp
    omega
  have hlen2 : (l.take j ++ l.drop (j + 1)).length = l.length - 1 := by
    simp
    omega
  show (l.take j ++ l.drop (j + 1) ++ l.drop (l.length - 1)).dropLast
      = l.take j ++ l.drop (j + 1)
  rw [List.dropLast_eq_take, hlen, List.take_left' hlen2]

theorem Vec.erase_snd (v : Vec α) (j : Nat) : (v.erase j).2 = j := rfl

theorem Vec.erase_capacity (v : Vec α) (j : Nat) : (v.erase j).1.capacity = v.capacity := rfl

theorem Vec.erase_size (v : Vec α) (j : Nat) (hj : j < v.size) :
    (v.erase j).1.size = v.size - 1 := by
  have h := Vec.erase_fst_elems v j hj
  unfold Vec.size at hj ⊢
  rw [h]
  simp
  omega

/-! Well-formedness preservation and capacity monotonicity, operation by
operation. -/

theorem Vec.copyAssign_elems (a b : Vec α) : (Vec.copyAssign a b).elems = b.elems := by
  unfold Vec.copyAssign
  by_cases h1 : b.size > a.capacity
  · rw [if_pos h1]
    rfl
  · rw [if_neg h1]
    by_cases h2 : b.size ≥ a.size
    · rw [if_pos h2]
      show b.elems.take a.size ++ b.elems.drop a.size = b.elems
      exact List.take_append_drop _ _
    · rw [if_neg h2]
      show (b.elems.take b.size ++ a.elems.drop b.size).take b.size = b.elems
      unfold Vec.size
      rw [List.take_length, List.take_left]

theorem Vec.copyAssign_size (a b : Vec α) : (Vec.copyAssign a b).size = b.size := by
  unfold Vec.size
  rw [Vec.copyAssign_elems]

theorem Vec.copyAssign_capacity_of_le (a b : Vec α) (h : b.size ≤ a.capacity) :
    (Vec.copyAssign a b).capacity = a.capacity := by
  unfold Vec.copyAssign
  rw [if_neg (by omega)]
  by_cases h2 : b.size ≥ a.size
  · rw [if_pos h2]
  · rw [if_neg h2]

theorem Vec.copyAssign_wf (a b : Vec α) :
    (Vec.copyAssign a b).wf ∧ a.capacity ≤ (Vec.copyAssign a b).capacity := by
  by_cases h1 : b.size > a.capacity
  · have hc : (Vec.copyAssign a b).capacity = b.size := by
      unfold Vec.copyAssign
      rw [if_pos h1]
      rfl
    constructor
    · unfold Vec.wf
      rw [Vec.copyAssign_size, hc]
    · omega
  · have hc := Vec.copyAssign_capacity_of_le a b (by omega)
    constructor
    · unfold Vec.wf
      rw [Vec.copyAssign_size, hc]
      omega
    · omega

theorem Vec.emplaceBack_wf {v : Vec α} (hv : v.wf) (x : α) :
    (v.emplaceBack x).1.wf ∧ v.capacity ≤ (v.emplaceBack x).1.capacity := by
  unfold Vec.wf at hv ⊢
  rw [Vec.emplaceBack_size, Vec.emplaceBack_capacity]
  by_cases h : v.size = v.capacity
  · rw [if_pos h]
    by_cases h0 : v.size = 0
    · rw [if_pos h0]
      omega
    · rw [if_neg h0]
      omega
  · rw [if_neg h]
    omega

theorem Vec.popBack_wf {v : Vec α} (hv : v.wf) : v.popBack.wf := by
  unfold Vec.wf at hv ⊢
  rw [Vec.popBack_size, Vec.popBack_capacity]
  omega

theorem Vec.reserve_elems (v : Vec α) (n : Nat) : (v.reserve n).elems = v.elems := by
  unfold Vec.reserve
  by_cases h : n ≤ v.capacity
  · rw [if_pos h]
  · rw [if_neg h]

theorem Vec.reserve_size (v : Vec α) (n : Nat) : (v.reserve n).size = v.size := by
  unfold Vec.size
  rw [Vec.reserve_elems]

theorem Vec.reserve_capacity (v : Vec α) (n : Nat) :
    (v.reserve n).capacity = max v.capacity n := by
  unfold Vec.reserve
  by_cases h : n ≤ v.capacity
  · rw [if_pos h]
    omega
  · rw [if_neg h]
    show n = max v.capacity n
    omega

theorem Vec.reserve_wf {v : Vec α} (hv : v.wf) (n : Nat) :
    (v.reserve n).wf ∧ v.capacity ≤ (v.reserve n).capacity := by
  unfold Vec.wf at hv ⊢
  rw [Vec.reserve_size, Vec.reserve_capacity]
  omega

theorem Vec.resize_size (v : Vec α) (d : α) (n : Nat) :
    (v.resize d n).size = n := by
  unfold Vec.resize
  by_cases h : n ≤ v.size
  · rw [if_pos h]
    show (v.elems.take n).length = n
    unfold Vec.size at h
    simp
    omega
  · rw [if_neg h]
    show ((v.reserve n).elems ++ List.replicate (n - v.size) d).length = n
    rw [Vec.reserve_elems]
    unfold Vec.size at h ⊢
    simp
    omega

theorem Vec.resize_capacity (v : Vec α) (d : α) (n : Nat) :
    (v.resize d n).capacity = if n ≤ v.size then v.capacity else max v.capacity n := by
  unfold Vec.resize
  by_cases h : n ≤ v.size
  · simp only [if_pos h]
  · simp only [if_neg h]
    show (v.reserve n).capacity = max v.capacity n
    exact Vec.reserve_capacity v n

theorem Vec.resize_wf {v : Vec α} (hv : v.wf) (d : α) (n : Nat) :
    (v.resize d n).wf ∧ v.capacity ≤ (v.resize d n).capacity := by
  unfold Vec.wf at hv ⊢
  rw [Vec.resize_size, Vec.resize_capacity]
  by_cases h : n ≤ v.size
  · simp only [if_pos h]
    omega
  · simp only [if_neg h]
    omega

theorem Vec.emplace_wf {v : Vec α} (hv : v.wf) (k : Nat) (x : α) (hk : k ≤ v.size) :
    (v.emplace k x).1.wf ∧ v.capacity ≤ (v.emplace k x).1.capacity := by
  unfold Vec.wf at hv ⊢
  rw [Vec.emplace_size v k x hk, Vec.emplace_capacity]
  by_cases h : v.size = v.capacity
  · rw [if_pos h]
    by_cases h0 : v.size = 0
    · rw [if_pos h0]
      omega
    · rw [if_neg h0]
      omega
  · rw [if_neg h]
    omega

theorem Vec.erase_wf {v : Vec α} (hv : v.wf) (j : Nat) (hj : j < v.size) :
    (v.erase j).1.wf := by
  unfold Vec.wf at hv ⊢
  rw [Vec.erase_size v j hj, Vec.erase_capacity]
  omega

/-! `PushBack`/`PopBack` call sequences. -/

theorem Vec.step_capacity_le (v : Vec α) (op : VOp α) :
    v.capacity ≤ (v.step op).capacity := by
  cases op with
  | push x =>
    show v.capacity ≤ (v.emplaceBack x).1.capacity
    rw [Vec.emplaceBack_capacity]
    by_cases h : v.size = v.capacity
    · rw [if_pos h]
      by_cases h0 : v.size = 0
      · rw [if_pos h0]
        omega
      · rw [if_neg h0]
        omega
    · rw [if_neg h]
  | pop => exact Nat.le_of_eq (Vec.popBack_capacity v).symm

theorem Vec.step_wf {v : Vec α} (hv : v.wf) (op : VOp α) : (v.step op).wf := by
  cases op with
  | push x => exact (Vec.emplaceBack_wf hv x).1
  | pop => exact Vec.popBack_wf hv

theorem Vec.trajectory_wf {v : Vec α} (hv : v.wf) (ops : List (VOp α)) :
    ∀ w ∈ v.trajectory ops, w.wf := by
  induction ops generalizing v with
  | nil =>
    intro w hw
    unfold Vec.trajectory at hw
    simp at hw
    rw [hw]
    exact hv
  | cons op ops ih =>
    intro w hw
    unfold Vec.trajectory at hw
    rcases List.mem_cons.mp hw with h | h
    · rw [h]
      exact hv
    · exact ih (Vec.step_wf hv op) w h

theorem Vec.trajectory_head (v : Vec α) (ops : List (VOp α)) :
    (v.trajectory ops).head? = some v := by
  cases ops <;> rfl

theorem Vec.trajectory_capacity_mono (v : Vec α) (ops : List (VOp α)) :
    List.Chain' (fun u w => u.capacity ≤ w.capacity) (v.trajectory ops) := by
  induction ops generalizing v with
  | nil => simp [Vec.trajectory]
  | cons op ops ih =>
    unfold Vec.trajectory
    rw [List.chain'_cons']
    constructor
    · intro w hw
      rw [Vec.trajectory_head] at hw
      simp at hw
      rw [← hw]
      exact Vec.step_capacity_le v op
    · exact ih (v.step op)

/-! Ordering of the reallocation actions. -/

theorem emplaceBackGrowTrace_get1 (n c : Nat) :
    (emplaceBackGrowTrace n c)[1]? = some (RelocEv.constructNew n) := by
  simp [emplaceBackGrowTrace]

theorem emplaceBackGrowTrace_construct_before_reloc (n c i s d : Nat)
    (h : (emplaceBackGrowTrace n c)[i]? = some (RelocEv.reloc s d)) :
    ∃ m, m < i ∧ (emplaceBackGrowTrace n c)[m]? = some (RelocEv.constructNew n) := by
  match i with
  | 0 => simp [emplaceBackGrowTrace] at h
  | 1 => simp [emplaceBackGrowTrace] at h
  | (i + 2) => exact ⟨1, by omega, emplaceBackGrowTrace_get1 n c⟩

theorem emplaceGrowTrace_get1 (n c k : Nat) :
    (emplaceGrowTrace n c k)[1]? = some (RelocEv.constructNew k) := by
  simp [emplaceGrowTrace]

theorem emplaceGrowTrace_construct_before_reloc (n c k i s d : Nat)
    (h : (emplaceGrowTrace n c k)[i]? = some (RelocEv.reloc s d)) :
    ∃ m, m < i ∧ (emplaceGrowTrace n c k)[m]? = some (RelocEv.constructNew k) := by
  match i with
  | 0 => simp [emplaceGrowTrace] at h
  | 1 => simp [emplaceGrowTrace] at h
  | (i + 2) => exact ⟨1, by omega, emplaceGrowTrace_get1 n c k⟩

/-! The claims. -/

/-- C1 (amended): every operation of the interface preserves the invariant
`0 <= size <= capacity`, and the capacity is monotonically non-decreasing for
construction, copy assignment, `Reserve`, `Resize`, `PushBack`/`PopBack`,
`Insert`/`Erase`.  The storage-exchanging operations — `Swap`, move
construction (for the source) and move assignment — also preserve the
invariant, but hand each instance the other instance's capacity, which may be
smaller. -/
theorem C1_invariant_monotone (a b : Vec α) (n k j : Nat) (x d : α)
    (ha : a.wf) (hb : b.wf) (hk : k ≤ a.size) (hj : j < a.size) :
    (Vec.emptyV α).wf ∧
    (Vec.sizedCtor n d).wf ∧
    (Vec.copyCtor b).wf ∧
    ((Vec.moveCtorV b).1.wf ∧ (Vec.moveCtorV b).2.wf) ∧
    ((Vec.copyAssign a b).wf ∧ a.capacity ≤ (Vec.copyAssign a b).capacity) ∧
    ((Vec.swapOp a b).1.wf ∧ (Vec.swapOp a b).2.wf) ∧
    ((Vec.moveAssignOp a b false).1.wf ∧ (Vec.moveAssignOp a b false).2.wf) ∧
    ((a.reserve n).wf ∧ a.capacity ≤ (a.reserve n).capacity) ∧
    ((a.resize d n).wf ∧ a.capacity ≤ (a.resize d n).capacity) ∧
    ((a.emplaceBack x).1.wf ∧ a.capacity ≤ (a.emplaceBack x).1.capacity) ∧
    (a.popBack.wf ∧ a.popBack.capacity = a.capacity) ∧
    ((a.emplace k x).1.wf ∧ a.capacity ≤ (a.emplace k x).1.capacity) ∧
    ((a.erase j).1.wf ∧ (a.erase j).1.capacity = a.capacity) := by
  refine ⟨?_, ?_, ?_, ⟨hb, ?_⟩, Vec.copyAssign_wf a b, ⟨hb, ha⟩, ⟨hb, ha⟩,
    Vec.reserve_wf ha n, Vec.resize_wf ha d n, Vec.emplaceBack_wf ha x,
    ⟨Vec.popBack_wf ha, Vec.popBack_capacity a⟩, Vec.emplace_wf ha k x hk,
    ⟨Vec.erase_wf ha j hj, Vec.erase_capacity a j⟩⟩
  · simp [Vec.wf, Vec.size, Vec.emptyV]
  · simp [Vec.wf, Vec.size, Vec.sizedCtor]
  · simp [Vec.wf, Vec.size, Vec.copyCtor]
  · simp [Vec.wf, Vec.size, Vec.moveCtorV, Vec.swapOp, Vec.emptyV]

/-- C2 (code bug): `RawMemory` move assignment, evaluated at a destination
owning region 1 with capacity 2 and a source owning region 2 with capacity 3.
The assignment deallocates region 1 and then swaps, so the moved-from source
is left with capacity 2 and the address of the already-freed region 1 —
not with capacity 0 and a null buffer as the claim states. -/
theorem C2_moveAssign_eval :
    RawMemory.moveAssign ⟨some 1, 2⟩ ⟨some 2, 3⟩
      = (⟨some 2, 3⟩, ⟨some 1, 2⟩, some 1) ∧
    ¬((RawMemory.moveAssign ⟨some 1, 2⟩ ⟨some 2, 3⟩).2.1.capacity = 0 ∧
      (RawMemory.moveAssign ⟨some 1, 2⟩ ⟨some 2, 3⟩).2.1.buffer = none) ∧
    (RawMemory.moveAssign ⟨some 1, 2⟩ ⟨some 2, 3⟩).2.2
      = (RawMemory.moveAssign ⟨some 1, 2⟩ ⟨some 2, 3⟩).2.1.buffer := by
  decide

/-- C3: at full capacity, `EmplaceBack` constructs the new element into the
tail slot `size_` of the fresh region right after the allocation — action
position 1, before every relocation action — and if that construction fails
the error propagates with the container exactly in its pre-call state. -/
theorem C3_emplaceBack_strong (v : Vec α) (x : α) (h : v.size = v.capacity) :
    Vec.emplaceBackF v none = Except.error v ∧
    Vec.emplaceBackF v (some x)
      = Except.ok (⟨v.elems ++ [x], if v.size = 0 then 1 else v.size * 2⟩, v.size,
          emplaceBackGrowTrace v.size (if v.size = 0 then 1 else v.size * 2)) ∧
    (∀ (c : Nat), (emplaceBackGrowTrace v.size c)[1]? = some (RelocEv.constructNew v.size)) ∧
    (∀ (c i s d : Nat), (emplaceBackGrowTrace v.size c)[i]? = some (RelocEv.reloc s d) →
      ∃ m, m < i ∧ (emplaceBackGrowTrace v.size c)[m]? = some (RelocEv.constructNew v.size)) := by
  refine ⟨?_, ?_, fun c => emplaceBackGrowTrace_get1 v.size c,
    fun c i s d hi => emplaceBackGrowTrace_construct_before_reloc v.size c i s d hi⟩
  · unfold Vec.emplaceBackF
    rw [if_pos h]
  · unfold Vec.emplaceBackF
    rw [if_pos h]

/-- C4: along any valid `PushBack`/`PopBack` call sequence from a well-formed
state, every observation point satisfies `0 <= size <= capacity`, the capacity
never decreases, and a push that grows a full vector sets the capacity to 1
when it was 0 and to exactly double (hence at least double) otherwise. -/
theorem C4_pushpop_sequences (v : Vec α) (ops : List (VOp α)) (hwf : v.wf)
    (hvalid : Vec.validOps v ops = true) :
    (∀ w ∈ v.trajectory ops, w.wf) ∧
    List.Chain' (fun u w => u.capacity ≤ w.capacity) (v.trajectory ops) ∧
    (∀ (u : Vec α) (y : α), u.size = u.capacity →
      (u.step (VOp.push y)).capacity = if u.capacity = 0 then 1 else u.capacity * 2) := by
  refine ⟨Vec.trajectory_wf hwf ops, Vec.trajectory_capacity_mono v ops, ?_⟩
  intro u y hu
  show (u.emplaceBack y).1.capacity = _
  rw [Vec.emplaceBack_capacity, if_pos hu, hu]

/-- C5: `Emplace` at offset `k < size` produces elements
`[0,k) ++ [new] ++ former [k,size)`, size `size + 1`, and returns offset `k`;
in the full-capacity path the new element is constructed at slot `k` of the
new region (action position 1) before every relocation action. -/
theorem C5_emplace_spec (v : Vec α) (k : Nat) (x : α) (hk : k < v.size) :
    (v.emplace k x).1.elems = v.elems.take k ++ [x] ++ v.elems.drop k ∧
    (v.emplace k x).1.size = v.size + 1 ∧
    (v.emplace k x).2 = k ∧
    (∀ (c : Nat), (emplaceGrowTrace v.size c k)[1]? = some (RelocEv.constructNew k)) ∧
    (∀ (c i s d : Nat), (emplaceGrowTrace v.size c k)[i]? = some (RelocEv.reloc s d) →
      ∃ m, m < i ∧ (emplaceGrowTrace v.size c k)[m]? = some (RelocEv.constructNew k)) :=
  ⟨Vec.emplace_fst_elems v k x (Nat.le_of_lt hk), Vec.emplace_size v k x (Nat.le_of_lt hk),
    Vec.emplace_snd v k x, fun c => emplaceGrowTrace_get1 v.size c k,
    fun c i s d hi => emplaceGrowTrace_construct_before_reloc v.size c k i s d hi⟩

/-- C6: copy assignment between distinct vectors copies the source's size and
element values; when the source fits the target's capacity the capacity is
unchanged (no reallocation); in the reallocating path a failure while
copy-constructing the temporary leaves the target exactly as it was. -/
theorem C6_copyAssign_spec (a b : Vec α) (cp : α → Option α) :
    (Vec.copyAssign a b).size = b.size ∧
    (Vec.copyAssign a b).elems = b.elems ∧
    (b.size ≤ a.capacity → (Vec.copyAssign a b).capacity = a.capacity) ∧
    (b.elems.mapM cp = none → Vec.copyAssignGrowF a b cp = Except.error a) := by
  refine ⟨Vec.copyAssign_size a b, Vec.copyAssign_elems a b,
    Vec.copyAssign_capacity_of_le a b, ?_⟩
  intro hnone
  unfold Vec.copyAssignGrowF
  rw [hnone]

/-- C7: move construction transfers size, capacity and element values to the
destination and leaves the source with size 0 and capacity 0; it is a total
function (it never fails). -/
theorem C7_moveCtor_spec (v : Vec α) :
    (Vec.moveCtorV v).1.size = v.size ∧
    (Vec.moveCtorV v).1.capacity = v.capacity ∧
    (Vec.moveCtorV v).1.elems = v.elems ∧
    (Vec.moveCtorV v).2.size = 0 ∧
    (Vec.moveCtorV v).2.capacity = 0 :=
  ⟨rfl, rfl, rfl, rfl, rfl⟩

/-- C8: `Insert` at any valid position immediately followed by `Erase` at the
returned position reproduces the original sequence of element values. -/
theorem C8_insert_erase_id (v : Vec α) (k : Nat) (x : α) (hk : k ≤ v.size) :
    ((v.emplace k x).1.erase (v.emplace k x).2).1.elems = v.elems := by
  rw [Vec.emplace_snd]
  have he := Vec.emplace_fst_elems v k x hk
  have hsz := Vec.emplace_size v k x hk
  have hk2 : k < (v.emplace k x).1.size := by omega
  rw [Vec.erase_fst_elems _ k hk2, he]
  have hlen : (v.elems.take k).length = k := by
    unfold Vec.size at hk
    simp
    omega
  have hlen2 : (v.elems.take k ++ [x]).length = k + 1 := by
    simp [hlen]
  have h1 : (v.elems.take k ++ [x] ++ v.elems.drop k).take k = v.elems.take k := by
    rw [List.append_assoc, List.take_left' hlen]
  have h2 : (v.elems.take k ++ [x] ++ v.elems.drop k).drop (k + 1) = v.elems.drop k := by
    rw [List.drop_left' hlen2]
  rw [h1, h2, List.take_append_drop]

/-- C9: `EmplaceBack` increments the size by one, constructs the given value
into slot `size` (the old size), and returns a reference to that slot. -/
theorem C9_emplaceBack_return (v : Vec α) (x : α) :
    (v.emplaceBack x).1.size = v.size + 1 ∧
    (v.emplaceBack x).2 = v.size ∧
    ((v.emplaceBack x).1.elems)[(v.emplaceBack x).2]? = some x := by
  refine ⟨Vec.emplaceBack_size v x, Vec.emplaceBack_snd v x, ?_⟩
  rw [Vec.emplaceBack_fst_elems, Vec.emplaceBack_snd]
  unfold Vec.size
  simp

/-- C10: self-assignment is a no-op: both assignment operators first compare
`this` with `&rhs` and skip the body when they alias, leaving size, capacity
and elements unchanged. -/
theorem C10_self_assignment (v : Vec α) :
    Vec.copyAssignOp v v true = v ∧ Vec.moveAssignOp v v true = (v, v) :=
  ⟨rfl, rfl⟩

/-- C1 counterexample: `Swap` between a well-formed capacity-1 vector and a
well-formed capacity-0 vector leaves the first instance with a smaller
capacity than it had before the call, refuting the claim that no operation of
the interface ever decreases an instance's capacity. -/
theorem C1_counterexample :
    (⟨[0], 1⟩ : Vec Nat).wf ∧ (Vec.emptyV Nat).wf ∧
    (Vec.swapOp (⟨[0], 1⟩ : Vec Nat) (Vec.emptyV Nat)).1.capacity
      < (⟨[0], 1⟩ : Vec Nat).capacity := by
  decide

/-- C1 witness: the amended statement applied at concrete well-formed
vectors. -/
theorem C1_witness :
    ((⟨[1], 2⟩ : Vec Nat).wf ∧ (⟨[4], 1⟩ : Vec Nat).wf ∧
      1 ≤ (⟨[1], 2⟩ : Vec Nat).size ∧ 0 < (⟨[1], 2⟩ : Vec Nat).size) ∧
    ((Vec.emptyV Nat).wf ∧
      (Vec.sizedCtor 3 (0 : Nat)).wf ∧
      (Vec.copyCtor (⟨[4], 1⟩ : Vec Nat)).wf ∧
      ((Vec.moveCtorV (⟨[4], 1⟩ : Vec Nat)).1.wf ∧
        (Vec.moveCtorV (⟨[4], 1⟩ : Vec Nat)).2.wf) ∧
      ((Vec.copyAssign (⟨[1], 2⟩ : Vec Nat) ⟨[4], 1⟩).wf ∧
        (⟨[1], 2⟩ : Vec Nat).capacity
          ≤ (Vec.copyAssign (⟨[1], 2⟩ : Vec Nat) ⟨[4], 1⟩).capacity) ∧
      ((Vec.swapOp (⟨[1], 2⟩ : Vec Nat) ⟨[4], 1⟩).1.wf ∧
        (Vec.swapOp (⟨[1], 2⟩ : Vec Nat) ⟨[4], 1⟩).2.wf) ∧
      ((Vec.moveAssignOp (⟨[1], 2⟩ : Vec Nat) ⟨[4], 1⟩ false).1.wf ∧
        (Vec.moveAssignOp (⟨[1], 2⟩ : Vec Nat) ⟨[4], 1⟩ false).2.wf) ∧
      ((Vec.reserve (⟨[1], 2⟩ : Vec Nat) 3).wf ∧
        (⟨[1], 2⟩ : Vec Nat).capacity ≤ (Vec.reserve (⟨[1], 2⟩ : Vec Nat) 3).capacity) ∧
      ((Vec.resize (⟨[1], 2⟩ : Vec Nat) 0 3).wf ∧
        (⟨[1], 2⟩ : Vec Nat).capacity ≤ (Vec.resize (⟨[1], 2⟩ : Vec Nat) 0 3).capacity) ∧
      ((Vec.emplaceBack (⟨[1], 2⟩ : Vec Nat) 7).1.wf ∧
        (⟨[1], 2⟩ : Vec Nat).capacity ≤ (Vec.emplaceBack (⟨[1], 2⟩ : Vec Nat) 7).1.capacity) ∧
      ((Vec.popBack (⟨[1], 2⟩ : Vec Nat)).wf ∧
        (Vec.popBack (⟨[1], 2⟩ : Vec Nat)).capacity = (⟨[1], 2⟩ : Vec Nat).capacity) ∧
      ((Vec.emplace (⟨[1], 2⟩ : Vec Nat) 1 7).1.wf ∧
        (⟨[1], 2⟩ : Vec Nat).capacity ≤ (Vec.emplace (⟨[1], 2⟩ : Vec Nat) 1 7).1.capacity) ∧
      ((Vec.erase (⟨[1], 2⟩ : Vec Nat) 0).1.wf ∧
        (Vec.erase (⟨[1], 2⟩ : Vec Nat) 0).1.capacity = (⟨[1], 2⟩ : Vec Nat).capacity)) :=
  ⟨⟨by decide, by decide, by decide, by decide⟩,
    C1_invariant_monotone ⟨[1], 2⟩ ⟨[4], 1⟩ 3 1 0 7 0
      (by decide) (by decide) (by decide) (by decide)⟩

/-- C3 witness: the theorem applied at a full vector `[1, 2]` of capacity 2
with new element 5. -/
theorem C3_witness :
    (⟨[1, 2], 2⟩ : Vec Nat).size = (⟨[1, 2], 2⟩ : Vec Nat).capacity ∧
    (Vec.emplaceBackF (⟨[1, 2], 2⟩ : Vec Nat) none = Except.error ⟨[1, 2], 2⟩ ∧
      Vec.emplaceBackF (⟨[1, 2], 2⟩ : Vec Nat) (some 5)
        = Except.ok (⟨[1, 2, 5], 4⟩, 2, emplaceBackGrowTrace 2 4) ∧
      (∀ (c : Nat), (emplaceBackGrowTrace 2 c)[1]? = some (RelocEv.constructNew 2)) ∧
      (∀ (c i s d : Nat), (emplaceBackGrowTrace 2 c)[i]? = some (RelocEv.reloc s d) →
        ∃ m, m < i ∧ (emplaceBackGrowTrace 2 c)[m]? = some (RelocEv.constructNew 2))) :=
  ⟨by decide, C3_emplaceBack_strong ⟨[1, 2], 2⟩ 5 (by decide)⟩

/-- C4 witness: the theorem applied to the empty vector and a concrete
push/push/push/pop/push sequence. -/
theorem C4_witness :
    ((Vec.emptyV Nat).wf ∧
      Vec.validOps (Vec.emptyV Nat)
        [VOp.push 1, VOp.push 2, VOp.push 3, VOp.pop, VOp.push 4] = true) ∧
    ((∀ w ∈ Vec.trajectory (Vec.emptyV Nat)
        [VOp.push 1, VOp.push 2, VOp.push 3, VOp.pop, VOp.push 4], w.wf) ∧
      List.Chain' (fun u w => u.capacity ≤ w.capacity)
        (Vec.trajectory (Vec.emptyV Nat)
          [VOp.push 1, VOp.push 2, VOp.push 3, VOp.pop, VOp.push 4]) ∧
      (∀ (u : Vec Nat) (y : Nat), u.size = u.capacity →
        (u.step (VOp.push y)).capacity = if u.capacity = 0 then 1 else u.capacity * 2)) :=
  ⟨⟨by decide, by decide⟩,
    C4_pushpop_sequences (Vec.emptyV Nat)
      [VOp.push 1, VOp.push 2, VOp.push 3, VOp.pop, VOp.push 4]
      (by decide) (by decide)⟩

/-- C5 witness: the theorem applied at the full vector `[1, 2, 3]` of
capacity 3, inserting 9 at offset 1. -/
theorem C5_witness :
    1 < (⟨[1, 2, 3], 3⟩ : Vec Nat).size ∧
    ((Vec.emplace (⟨[1, 2, 3], 3⟩ : Vec Nat) 1 9).1.elems = [1, 9, 2, 3] ∧
      (Vec.emplace (⟨[1, 2, 3], 3⟩ : Vec Nat) 1 9).1.size = 4 ∧
      (Vec.emplace (⟨[1, 2, 3], 3⟩ : Vec Nat) 1 9).2 = 1 ∧
      (∀ (c : Nat), (emplaceGrowTrace 3 c 1)[1]? = some (RelocEv.constructNew 1)) ∧
      (∀ (c i s d : Nat), (emplaceGrowTrace 3 c 1)[i]? = some (RelocEv.reloc s d) →
        ∃ m, m < i ∧ (emplaceGrowTrace 3 c 1)[m]? = some (RelocEv.constructNew 1))) :=
  ⟨by decide, C5_emplace_spec ⟨[1, 2, 3], 3⟩ 1 9 (by decide)⟩

/-- C6 witness: the capacity-preservation part at a source that fits the
target's capacity, and the strong-guarantee part at a failing copy into a
too-small target. -/
theorem C6_witness :
    ((⟨[8, 9], 2⟩ : Vec Nat).size ≤ (⟨[1, 2, 3], 4⟩ : Vec Nat).capacity ∧
      (Vec.copyAssign (⟨[1, 2, 3], 4⟩ : Vec Nat) ⟨[8, 9], 2⟩).capacity
        = (⟨[1, 2, 3], 4⟩ : Vec Nat).capacity) ∧
    ((⟨[5, 6], 2⟩ : Vec Nat).elems.mapM (fun _ => (none : Option Nat)) = none ∧
      Vec.copyAssignGrowF (⟨[1], 1⟩ : Vec Nat) ⟨[5, 6], 2⟩ (fun _ => none)
        = Except.error ⟨[1], 1⟩) :=
  ⟨⟨by decide,
      (C6_copyAssign_spec (⟨[1, 2, 3], 4⟩ : Vec Nat) ⟨[8, 9], 2⟩ (fun y => some y)).2.2.1
        (by decide)⟩,
    ⟨by rfl,
      (C6_copyAssign_spec (⟨[1], 1⟩ : Vec Nat) ⟨[5, 6], 2⟩ (fun _ => none)).2.2.2
        (by rfl)⟩⟩

/-- C8 witness: insert 9 at offset 1 of `[1, 2, 3]` and erase at the returned
position, recovering the original elements. -/
theorem C8_witness :
    1 ≤ (⟨[1, 2, 3], 3⟩ : Vec Nat).size ∧
    ((Vec.emplace (⟨[1, 2, 3], 3⟩ : Vec Nat) 1 9).1.erase
        (Vec.emplace (⟨[1, 2, 3], 3⟩ : Vec Nat) 1 9).2).1.elems
      = (⟨[1, 2, 3], 3⟩ : Vec Nat).elems :=
  ⟨by decide, C8_insert_erase_id ⟨[1, 2, 3], 3⟩ 1 9 (by decide)⟩

end AdvancedVector
